import Mathlib

/-!
Shallow embedding of the geometric primitives of `geom.go` from the
rtreego repository.  The float64 scalar type is modelled by the exact
rationals `ℚ`; the package-level dimensionality constant `Dim` is a
parameter `d : ℕ`.  Loops over the coordinates become `Finset` sums or
`List.foldl` over `List.finRange d`, mirroring the iteration order of the
Go `for` loops.
-/

/-- Point represents a point in d-dimensional Euclidean space
(`Point [Dim]float64` in geom.go), coordinates modelled as exact
rationals. -/
abbrev Point (d : ℕ) := Fin d → ℚ

/-- Rect represents the box `[P 0, Q 0] × … × [P (d-1), Q (d-1)]`
(`Rect` in geom.go, fields `P` and `Q`). -/
@[ext]
structure Rect (d : ℕ) where
  P : Point d
  Q : Point d

variable {d : ℕ}

/-- The rectangle invariant stated in geom.go (`p[i] <= q[i]` for all `i`,
enforced by `NewRect`). -/
abbrev RectInv (r : Rect d) : Prop := ∀ i, r.P i ≤ r.Q i

/-- One iteration of the loop of `minDist` in geom.go: the contribution of
dimension `i` to the sum. -/
def minDistTerm (p : Point d) (r : Rect d) (i : Fin d) : ℚ :=
  if p i < r.P i then (p i - r.P i) * (p i - r.P i)
  else if r.Q i < p i then (p i - r.Q i) * (p i - r.Q i)
  else 0

/-- `minDist` from geom.go: the squared distance from a point to a
rectangle, accumulated one dimension at a time. -/
def minDist (p : Point d) (r : Rect d) : ℚ := ∑ i, minDistTerm p r i

/-- The closure `rm` inside `minMaxDist` in geom.go: `r.P k` when
`p[k] <= (r.P[k]+r.Q[k])/2`, otherwise `r.Q k`. -/
def rm (p : Point d) (r : Rect d) (k : Fin d) : ℚ :=
  if p k ≤ (r.P k + r.Q k) / 2 then r.P k else r.Q k

/-- The closure `rM` inside `minMaxDist` in geom.go: `r.P k` when
`p[k] >= (r.P[k]+r.Q[k])/2`, otherwise `r.Q k`. -/
def rM (p : Point d) (r : Rect d) (k : Fin d) : ℚ :=
  if (r.P k + r.Q k) / 2 ≤ p k then r.P k else r.Q k

/-- The precomputed sum `S = Σ_i (p_i - rM(i))²` of `minMaxDist` in
geom.go. -/
def minMaxS (p : Point d) (r : Rect d) : ℚ :=
  ∑ i, (p i - rM p r i) * (p i - rM p r i)

/-- `math.MaxFloat64`, the initial value of the running minimum in
`minMaxDist`, as an exact rational. -/
def MAXFLOAT : ℚ := 2 ^ 1024 - 2 ^ 971

/-- The candidate value `d = S - d1*d1 + d2*d2` computed for dimension `k`
in the second loop of `minMaxDist` in geom.go. -/
def minMaxCand (p : Point d) (r : Rect d) (k : Fin d) : ℚ :=
  minMaxS p r - (p k - rM p r k) * (p k - rM p r k)
    + (p k - rm p r k) * (p k - rm p r k)

/-- `minMaxDist` from geom.go: fold the running minimum of the candidate
values over the dimensions, starting from `math.MaxFloat64`. -/
def minMaxDist (p : Point d) (r : Rect d) : ℚ :=
  (List.finRange d).foldl
    (fun m k => if minMaxCand p r k < m then minMaxCand p r k else m) MAXFLOAT

/-- The face of `r` in dimension `k` on the same side of the midpoint as
`p k`, following the specification text for `min_max_dist` (the "nearer"
face). -/
def nearSpec (p : Point d) (r : Rect d) (k : Fin d) : ℚ :=
  if p k ≤ (r.P k + r.Q k) / 2 then r.P k else r.Q k

/-- The face of `r` in dimension `k` opposite to `nearSpec`, following the
specification text for `min_max_dist` (the "far" face, always the face
opposite the near one, also when `p k` is exactly the midpoint). -/
def farSpec (p : Point d) (r : Rect d) (k : Fin d) : ℚ :=
  if p k ≤ (r.P k + r.Q k) / 2 then r.Q k else r.P k

/-- The candidate value of the specification's two-pass description of
`min_max_dist`: `S - (p_k - far_k)² + (p_k - near_k)²` with
`S = Σ_i (p_i - far_i)²`. -/
def minMaxSpecCand (p : Point d) (r : Rect d) (k : Fin d) : ℚ :=
  (∑ i, (p i - farSpec p r i) * (p i - farSpec p r i))
    - (p k - farSpec p r k) * (p k - farSpec p r k)
    + (p k - nearSpec p r k) * (p k - nearSpec p r k)

/-- `ContainsPoint` from geom.go: no dimension has `p i < r.P i` or
`p i > r.Q i`. -/
abbrev ContainsPoint (r : Rect d) (p : Point d) : Prop :=
  ∀ i, ¬(p i < r.P i ∨ r.Q i < p i)

/-- `ContainsRect` from geom.go: no dimension has `a1 > a2` or `b2 > b1`
where `a1 = r1.P i`, `b1 = r1.Q i`, `a2 = r2.P i`, `b2 = r2.Q i`. -/
abbrev ContainsRect (r1 r2 : Rect d) : Prop :=
  ∀ i, ¬(r2.P i < r1.P i ∨ r1.Q i < r2.Q i)

/-- `enlarge` from geom.go, the in-place mutation returned as a new value:
each low coordinate is lowered to `r2`'s when `r1`'s is larger, each high
coordinate raised to `r2`'s when `r1`'s is smaller. -/
def enlarge (r1 r2 : Rect d) : Rect d where
  P := fun i => if r2.P i < r1.P i then r2.P i else r1.P i
  Q := fun i => if r1.Q i < r2.Q i then r2.Q i else r1.Q i

/-- `Intersect` from geom.go: false exactly when some dimension has
`r2.Q[i] <= r1.P[i]` or `r1.Q[i] <= r2.P[i]`. -/
abbrev Intersect (r1 r2 : Rect d) : Prop :=
  ∀ i, ¬(r2.Q i ≤ r1.P i ∨ r1.Q i ≤ r2.P i)

/-- `ToRect` from geom.go: the box centred at `p` with half-width `tol` in
every dimension. -/
def ToRect (p : Point d) (tol : ℚ) : Rect d where
  P := fun i => p i - tol
  Q := fun i => p i + tol

/-- `boundingBox` from geom.go: copy `r1` and `enlarge` it by `r2`. -/
def boundingBox (r1 r2 : Rect d) : Rect d := enlarge r1 r2

/-- `NewRect` from geom.go: scanning the lengths in index order, the first
non-positive length aborts construction with a `DistError` carrying that
length; otherwise the result has low corner `p` and high corner
`p + lengths`. -/
def NewRect (p : Point d) (lengths : Fin d → ℚ) : Except ℚ (Rect d) :=
  match (List.finRange d).find? (fun i => decide (lengths i ≤ 0)) with
  | some i => Except.error (lengths i)
  | none => Except.ok ⟨p, fun i => p i + lengths i⟩

/-- `margin` from geom.go: `4.0 * Σ_i (Q i - P i)`, with the multiplier
hard-coded to `4.0`. -/
def margin (r : Rect d) : ℚ := 4 * ∑ i, (r.Q i - r.P i)

/-! ### Helper lemmas about the running-minimum fold of `minMaxDist` -/

/-- The running minimum never exceeds its starting value. -/
theorem foldl_runmin_le_init (f : Fin d → ℚ) (l : List (Fin d)) (a : ℚ) :
    l.foldl (fun m j => if f j < m then f j else m) a ≤ a := by
  induction l generalizing a with
  | nil => exact le_rfl
  | cons x t ih =>
    simp only [List.foldl_cons]
    rcases lt_or_le (f x) a with h | h
    · rw [if_pos h]
      exact le_trans (ih _) h.le
    · rw [if_neg (not_lt.mpr h)]
      exact ih _

/-- The running minimum is a lower bound of every value folded in. -/
theorem foldl_runmin_le_mem (f : Fin d → ℚ) (l : List (Fin d)) :
    ∀ (a : ℚ) (k : Fin d), k ∈ l →
      l.foldl (fun m j => if f j < m then f j else m) a ≤ f k := by
  induction l with
  | nil =>
    intro a k hk
    cases hk
  | cons x t ih =>
    intro a k hk
    rcases List.mem_cons.mp hk with rfl | hk'
    · simp only [List.foldl_cons]
      refine le_trans (foldl_runmin_le_init f t _) ?_
      rcases lt_or_le (f k) a with h | h
      · rw [if_pos h]
      · rw [if_neg (not_lt.mpr h)]
        exact h
    · exact ih _ k hk'

/-- The running minimum is either the starting value or one of the values
folded in. -/
theorem foldl_runmin_eq_or (f : Fin d → ℚ) (l : List (Fin d)) :
    ∀ a : ℚ, l.foldl (fun m j => if f j < m then f j else m) a = a ∨
      ∃ k ∈ l, l.foldl (fun m j => if f j < m then f j else m) a = f k := by
  induction l with
  | nil =>
    intro a
    exact Or.inl rfl
  | cons x t ih =>
    intro a
    simp only [List.foldl_cons]
    rcases ih (if f x < a then f x else a) with h | ⟨k, hk, h⟩
    · rcases lt_or_le (f x) a with hx | hx
      · right
        exact ⟨x, List.mem_cons_self x t, by rw [h, if_pos hx]⟩
      · left
        rw [h, if_neg (not_lt.mpr hx)]
    · right
      exact ⟨k, List.mem_cons_of_mem x hk, h⟩

/-- A common lower bound of the starting value and all folded values is a
lower bound of the running minimum. -/
theorem le_foldl_runmin (f : Fin d → ℚ) (l : List (Fin d)) :
    ∀ (a c : ℚ), c ≤ a → (∀ k ∈ l, c ≤ f k) →
      c ≤ l.foldl (fun m j => if f j < m then f j else m) a := by
  induction l with
  | nil =>
    intro a c ha _
    exact ha
  | cons x t ih =>
    intro a c ha hf
    simp only [List.foldl_cons]
    refine ih _ c ?_ fun k hk => hf k (List.mem_cons_of_mem x hk)
    rcases lt_or_le (f x) a with hx | hx
    · rw [if_pos hx]
      exact hf x (List.mem_cons_self x t)
    · rw [if_neg (not_lt.mpr hx)]
      exact ha

/-! ### The code's candidate values agree with the specification's -/

/-- The squared offset to the code's `rM` face equals the squared offset to
the specification's far face: they coincide except when `p k` is exactly
the midpoint, where the two faces are equidistant from `p k`. -/
theorem rM_sq_eq_farSpec_sq (p : Point d) (r : Rect d) (k : Fin d) :
    (p k - rM p r k) * (p k - rM p r k)
      = (p k - farSpec p r k) * (p k - farSpec p r k) := by
  unfold rM farSpec
  rcases lt_trichotomy (p k) ((r.P k + r.Q k) / 2) with h | h | h
  · rw [if_neg (not_le.mpr h), if_pos h.le]
  · rw [if_pos h.ge, if_pos h.le]
    linear_combination (2 * r.Q k - 2 * r.P k) * h
  · rw [if_pos h.le, if_neg (not_le.mpr h)]

/-- The candidate computed by the code's second loop equals the candidate
described by the specification. -/
theorem minMaxCand_eq_spec (p : Point d) (r : Rect d) (k : Fin d) :
    minMaxCand p r k = minMaxSpecCand p r k := by
  unfold minMaxCand minMaxSpecCand minMaxS
  rw [Finset.sum_congr rfl fun i _ => rM_sq_eq_farSpec_sq p r i,
    rM_sq_eq_farSpec_sq p r k]
  rfl

/-- Claim C1: for every point `p` and rectangle `r` with `low ≤ high` in
every dimension (and at least one dimension, with the candidate values not
all above `math.MaxFloat64`, the running minimum's start value),
`minMaxDist p r` equals the minimum over all `k` of the specification's
two-pass candidate `S - (p_k - far_k)² + (p_k - near_k)²`, where `near_k`
is the face on the same side of the midpoint as `p_k` and `far_k` the
opposite face, also when `p_k` lies exactly on the midpoint. -/
theorem minMaxDist_follows_spec (p : Point d) (r : Rect d) (hd : 0 < d)
    (hinv : RectInv r) (hb : ∃ k, minMaxSpecCand p r k ≤ MAXFLOAT) :
    minMaxDist p r =
      Finset.univ.inf' ⟨⟨0, hd⟩, Finset.mem_univ _⟩ (minMaxSpecCand p r) := by
  obtain ⟨k0, hk0⟩ := hb
  have hle : ∀ k : Fin d, minMaxDist p r ≤ minMaxSpecCand p r k := by
    intro k
    rw [← minMaxCand_eq_spec]
    exact foldl_runmin_le_mem (minMaxCand p r) (List.finRange d) MAXFLOAT k
      (List.mem_finRange k)
  apply le_antisymm
  · exact Finset.le_inf' _ _ fun k _ => hle k
  · rcases foldl_runmin_eq_or (minMaxCand p r) (List.finRange d) MAXFLOAT with
      h | ⟨k, _, h⟩
    · have h2 : minMaxSpecCand p r k0 ≤ minMaxDist p r := by
        rw [show minMaxDist p r = MAXFLOAT from h]
        exact hk0
      exact le_trans (Finset.inf'_le _ (Finset.mem_univ k0)) h2
    · have h2 : minMaxDist p r = minMaxSpecCand p r k := by
        rw [show minMaxDist p r = minMaxCand p r k from h, minMaxCand_eq_spec]
      rw [h2]
      exact Finset.inf'_le _ (Finset.mem_univ k)

/-- Witness for claim C1: the hypotheses hold and the conclusion follows at
`p = (0)`, `r = [1, 3]` in one dimension. -/
theorem minMaxDist_follows_spec_witness :
    0 < 1 ∧ RectInv (⟨fun _ => 1, fun _ => 3⟩ : Rect 1)
      ∧ (∃ k, minMaxSpecCand (fun _ => (0 : ℚ)) (⟨fun _ => 1, fun _ => 3⟩ : Rect 1) k ≤ MAXFLOAT)
      ∧ minMaxDist (fun _ => (0 : ℚ)) (⟨fun _ => 1, fun _ => 3⟩ : Rect 1)
        = Finset.univ.inf' ⟨⟨0, Nat.one_pos⟩, Finset.mem_univ _⟩
            (minMaxSpecCand (fun _ => (0 : ℚ)) (⟨fun _ => 1, fun _ => 3⟩ : Rect 1)) :=
  ⟨Nat.one_pos,
   fun _ => by norm_num,
   ⟨⟨0, Nat.one_pos⟩, by
      norm_num [minMaxSpecCand, farSpec, nearSpec, MAXFLOAT, Fin.sum_univ_one]⟩,
   minMaxDist_follows_spec (fun _ => (0 : ℚ)) (⟨fun _ => 1, fun _ => 3⟩ : Rect 1)
     Nat.one_pos (fun _ => by norm_num)
     ⟨⟨0, Nat.one_pos⟩, by
        norm_num [minMaxSpecCand, farSpec, nearSpec, MAXFLOAT, Fin.sum_univ_one]⟩⟩

/-- Each dimension's contribution to `minDist` is non-negative. -/
theorem minDistTerm_nonneg (p : Point d) (r : Rect d) (i : Fin d) :
    0 ≤ minDistTerm p r i := by
  unfold minDistTerm
  split_ifs
  · exact mul_self_nonneg _
  · exact mul_self_nonneg _
  · exact le_rfl

/-- A dimension contributes zero to `minDist` exactly when the coordinate
lies within the rectangle's interval in that dimension. -/
theorem minDistTerm_eq_zero_iff (p : Point d) (r : Rect d) (i : Fin d) :
    minDistTerm p r i = 0 ↔ ¬(p i < r.P i ∨ r.Q i < p i) := by
  unfold minDistTerm
  split_ifs with h1 h2
  · constructor
    · intro h
      have he : p i = r.P i := sub_eq_zero.mp (mul_self_eq_zero.mp h)
      rw [he] at h1
      exact absurd h1 (lt_irrefl _)
    · intro h
      exact absurd (Or.inl h1) h
  · constructor
    · intro h
      have he : p i = r.Q i := sub_eq_zero.mp (mul_self_eq_zero.mp h)
      rw [he] at h2
      exact absurd h2 (lt_irrefl _)
    · intro h
      exact absurd (Or.inr h2) h
  · constructor
    · intro _ hc
      rcases hc with hc | hc
      · exact h1 hc
      · exact h2 hc
    · intro _
      rfl

/-- Claim C2: for every point and rectangle with `low ≤ high`, `minDist` is
the sum over the dimensions of the squared gap to the nearer boundary
(zero for coordinates inside the interval), and it vanishes exactly when
`ContainsPoint` holds. -/
theorem minDist_sum_and_zero_iff (p : Point d) (r : Rect d) (hinv : RectInv r) :
    minDist p r = (∑ i, if p i < r.P i then (p i - r.P i) * (p i - r.P i)
        else if r.Q i < p i then (p i - r.Q i) * (p i - r.Q i) else 0)
      ∧ (minDist p r = 0 ↔ ContainsPoint r p) := by
  refine ⟨rfl, ?_⟩
  unfold minDist
  rw [Finset.sum_eq_zero_iff_of_nonneg fun i _ => minDistTerm_nonneg p r i]
  constructor
  · intro h i
    exact (minDistTerm_eq_zero_iff p r i).mp (h i (Finset.mem_univ i))
  · intro h i _
    exact (minDistTerm_eq_zero_iff p r i).mpr (h i)

/-- Witness for claim C2 at `p = (3, 1)`, `r = [0, 2] × [0, 2]`: the
rectangle is well-formed, `minDist` is the stated sum (here `1`), and it is
non-zero exactly as the point is outside the rectangle. -/
theorem minDist_sum_and_zero_iff_witness :
    RectInv (⟨fun _ => 0, fun _ => 2⟩ : Rect 2)
      ∧ (minDist (fun i => if i.val = 0 then 3 else 1) (⟨fun _ => 0, fun _ => 2⟩ : Rect 2)
          = (∑ i : Fin 2, if (fun i : Fin 2 => if i.val = 0 then (3 : ℚ) else 1) i < (0 : ℚ)
              then ((fun i : Fin 2 => if i.val = 0 then (3 : ℚ) else 1) i - 0)
                * ((fun i : Fin 2 => if i.val = 0 then (3 : ℚ) else 1) i - 0)
              else if (2 : ℚ) < (fun i : Fin 2 => if i.val = 0 then (3 : ℚ) else 1) i
                then ((fun i : Fin 2 => if i.val = 0 then (3 : ℚ) else 1) i - 2)
                  * ((fun i : Fin 2 => if i.val = 0 then (3 : ℚ) else 1) i - 2)
                else 0)
          ∧ (minDist (fun i => if i.val = 0 then 3 else 1) (⟨fun _ => 0, fun _ => 2⟩ : Rect 2) = 0
              ↔ ContainsPoint (⟨fun _ => 0, fun _ => 2⟩ : Rect 2)
                  (fun i => if i.val = 0 then 3 else 1))) :=
  ⟨fun _ => by norm_num,
   minDist_sum_and_zero_iff (fun i => if i.val = 0 then 3 else 1)
     (⟨fun _ => 0, fun _ => 2⟩ : Rect 2) (fun _ => by norm_num)⟩

/-- The `rm` face lies inside the rectangle's interval. -/
theorem rm_mem_interval (p : Point d) (r : Rect d) (hinv : RectInv r) (k : Fin d) :
    r.P k ≤ rm p r k ∧ rm p r k ≤ r.Q k := by
  unfold rm
  split_ifs
  · exact ⟨le_rfl, hinv k⟩
  · exact ⟨hinv k, le_rfl⟩

/-- The `rM` face lies inside the rectangle's interval. -/
theorem rM_mem_interval (p : Point d) (r : Rect d) (hinv : RectInv r) (k : Fin d) :
    r.P k ≤ rM p r k ∧ rM p r k ≤ r.Q k := by
  unfold rM
  split_ifs
  · exact ⟨le_rfl, hinv k⟩
  · exact ⟨hinv k, le_rfl⟩

/-- The per-dimension contribution to `minDist` is at most the squared
offset to any value inside the rectangle's interval in that dimension. -/
theorem minDistTerm_le_sq (p : Point d) (r : Rect d) (i : Fin d) (x : ℚ)
    (h1 : r.P i ≤ x) (h2 : x ≤ r.Q i) :
    minDistTerm p r i ≤ (p i - x) * (p i - x) := by
  unfold minDistTerm
  split_ifs with hp hq
  · nlinarith [hp, h1]
  · nlinarith [hq, h2]
  · exact mul_self_nonneg _

/-- `minDist` is a lower bound of every candidate of `minMaxDist`'s second
loop. -/
theorem minDist_le_minMaxCand (p : Point d) (r : Rect d) (hinv : RectInv r)
    (k : Fin d) : minDist p r ≤ minMaxCand p r k := by
  have e1 : minDistTerm p r k + ∑ i ∈ Finset.univ.erase k, minDistTerm p r i
      = minDist p r :=
    Finset.add_sum_erase Finset.univ (minDistTerm p r) (Finset.mem_univ k)
  have e2 : (p k - rM p r k) * (p k - rM p r k)
        + ∑ i ∈ Finset.univ.erase k, (p i - rM p r i) * (p i - rM p r i)
      = minMaxS p r :=
    Finset.add_sum_erase Finset.univ
      (fun i => (p i - rM p r i) * (p i - rM p r i)) (Finset.mem_univ k)
  have hsum : ∑ i ∈ Finset.univ.erase k, minDistTerm p r i
      ≤ ∑ i ∈ Finset.univ.erase k, (p i - rM p r i) * (p i - rM p r i) :=
    Finset.sum_le_sum fun i _ =>
      minDistTerm_le_sq p r i (rM p r i) (rM_mem_interval p r hinv i).1
        (rM_mem_interval p r hinv i).2
  have hk : minDistTerm p r k ≤ (p k - rm p r k) * (p k - rm p r k) :=
    minDistTerm_le_sq p r k (rm p r k) (rm_mem_interval p r hinv k).1
      (rm_mem_interval p r hinv k).2
  unfold minMaxCand
  linarith [e1, e2, hsum, hk]

/-- Claim C3: for every point and rectangle with `low ≤ high` in every
dimension (and `minDist` not above the running minimum's start value
`math.MaxFloat64`), `minMaxDist` dominates `minDist`. -/
theorem minDist_le_minMaxDist (p : Point d) (r : Rect d) (hinv : RectInv r)
    (hb : minDist p r ≤ MAXFLOAT) : minDist p r ≤ minMaxDist p r :=
  le_foldl_runmin (minMaxCand p r) (List.finRange d) MAXFLOAT (minDist p r) hb
    fun k _ => minDist_le_minMaxCand p r hinv k

/-- Witness for claim C3 at `p = (0)`, `r = [1, 3]`: the hypotheses hold
and `minDist ≤ minMaxDist` there. -/
theorem minDist_le_minMaxDist_witness :
    RectInv (⟨fun _ => 1, fun _ => 3⟩ : Rect 1)
      ∧ minDist (fun _ => (0 : ℚ)) (⟨fun _ => 1, fun _ => 3⟩ : Rect 1) ≤ MAXFLOAT
      ∧ minDist (fun _ => (0 : ℚ)) (⟨fun _ => 1, fun _ => 3⟩ : Rect 1)
        ≤ minMaxDist (fun _ => (0 : ℚ)) (⟨fun _ => 1, fun _ => 3⟩ : Rect 1) :=
  ⟨fun _ => by norm_num,
   by norm_num [minDist, minDistTerm, MAXFLOAT, Fin.sum_univ_one],
   minDist_le_minMaxDist (fun _ => (0 : ℚ)) (⟨fun _ => 1, fun _ => 3⟩ : Rect 1)
     (fun _ => by norm_num)
     (by norm_num [minDist, minDistTerm, MAXFLOAT, Fin.sum_univ_one])⟩

/-- Claim C4: `NewRect` fails exactly when some length is non-positive; on
failure the error carries an offending (non-positive) length and, the
result being an `Except.error`, no rectangle value is produced; on success
the low corner is `p` and the high corner is `p + lengths` in every
dimension.  In particular corner `(0, 0)` with lengths `(1, -1)` fails
carrying `-1`. -/
theorem NewRect_spec :
    (∀ (d : ℕ) (p : Point d) (lengths : Fin d → ℚ),
      ((∃ i, lengths i ≤ 0) ↔ ∃ e, NewRect p lengths = Except.error e)
        ∧ (∀ e, NewRect p lengths = Except.error e → e ≤ 0 ∧ ∃ i, lengths i = e)
        ∧ (∀ r, NewRect p lengths = Except.ok r →
            r.P = p ∧ ∀ i, r.Q i = p i + lengths i))
      ∧ NewRect (d := 2) (fun _ => 0) (fun i => if i.val = 0 then 1 else -1)
          = Except.error (-1) := by
  constructor
  · intro d p lengths
    rcases hf : (List.finRange d).find? (fun i => decide (lengths i ≤ 0)) with
      _ | i
    · have hall : ∀ i, ¬ lengths i ≤ 0 := by
        intro i hi
        have := List.find?_eq_none.mp hf i (List.mem_finRange i)
        simp only [decide_eq_true_eq] at this
        exact this hi
      refine ⟨⟨fun ⟨i, hi⟩ => absurd hi (hall i), ?_⟩, ?_, ?_⟩
      · rintro ⟨e, he⟩
        rw [NewRect, hf] at he
        cases he
      · intro e he
        rw [NewRect, hf] at he
        cases he
      · intro r hr
        rw [NewRect, hf] at hr
        cases hr
        exact ⟨rfl, fun i => rfl⟩
    · have hpi : lengths i ≤ 0 := by
        have := List.find?_some hf
        simpa only [decide_eq_true_eq] using this
      refine ⟨⟨fun _ => ⟨lengths i, by rw [NewRect, hf]⟩, fun _ => ⟨i, hpi⟩⟩, ?_, ?_⟩
      · intro e he
        rw [NewRect, hf] at he
        cases he
        exact ⟨hpi, i, rfl⟩
      · intro r hr
        rw [NewRect, hf] at hr
        cases hr
  · norm_num [NewRect, List.finRange, Fin.foldr_succ, Fin.foldr_zero, List.find?]

/-- Witness for claim C4: applying the theorem's error branch at the
one-dimensional input with length `-2` discharges its hypothesis by
evaluation. -/
theorem NewRect_spec_witness :
    NewRect (d := 1) (fun _ => 0) (fun _ => -2) = Except.error (-2)
      ∧ ((-2 : ℚ) ≤ 0 ∧ ∃ i : Fin 1, (fun _ : Fin 1 => (-2 : ℚ)) i = -2) :=
  ⟨by norm_num [NewRect, List.finRange, Fin.foldr_succ, Fin.foldr_zero, List.find?],
   (NewRect_spec.1 1 (fun _ => 0) (fun _ => -2)).2.1 (-2)
     (by norm_num [NewRect, List.finRange, Fin.foldr_succ, Fin.foldr_zero, List.find?])⟩

/-- Counterexample to claim C5: `ToRect` with the negative tolerance `-1`
produces a rectangle violating `low ≤ high`, so the invariant does not
hold for `ToRect` at every tolerance. -/
theorem toRect_neg_tol_breaks_invariant :
    ¬ RectInv (ToRect (fun _ => (0 : ℚ)) (-1) : Rect 1) := by
  intro h
  have := h ⟨0, Nat.one_pos⟩
  norm_num [ToRect] at this

/-- Claim C5 (amended): the invariant `low ≤ high` holds for every
rectangle produced by `NewRect` on success, by `ToRect` for every
non-negative tolerance, by `boundingBox` of two invariant-satisfying
rectangles, and by `enlarge` applied to invariant-satisfying
rectangles. -/
theorem rect_invariant_construction_paths :
    (∀ (d : ℕ) (p : Point d) (lengths : Fin d → ℚ) (r : Rect d),
        NewRect p lengths = Except.ok r → RectInv r)
      ∧ (∀ (d : ℕ) (p : Point d) (tol : ℚ), 0 ≤ tol → RectInv (ToRect p tol))
      ∧ (∀ (d : ℕ) (r1 r2 : Rect d), RectInv r1 → RectInv r2 →
          RectInv (boundingBox r1 r2))
      ∧ (∀ (d : ℕ) (r1 r2 : Rect d), RectInv r1 → RectInv r2 →
          RectInv (enlarge r1 r2)) := by
  have henl : ∀ (d : ℕ) (r1 r2 : Rect d), RectInv r1 → RectInv r2 →
      RectInv (enlarge r1 r2) := by
    intro d r1 r2 h1 h2 i
    show (if r2.P i < r1.P i then r2.P i else r1.P i)
      ≤ (if r1.Q i < r2.Q i then r2.Q i else r1.Q i)
    have hP : (if r2.P i < r1.P i then r2.P i else r1.P i) ≤ r1.P i := by
      split_ifs with h
      · exact h.le
      · exact le_rfl
    have hQ : r1.Q i ≤ (if r1.Q i < r2.Q i then r2.Q i else r1.Q i) := by
      split_ifs with h
      · exact h.le
      · exact le_rfl
    exact le_trans hP (le_trans (h1 i) hQ)
  refine ⟨?_, ?_, fun d r1 r2 h1 h2 => henl d r1 r2 h1 h2, henl⟩
  · intro d p lengths r hr
    rcases hf : (List.finRange d).find? (fun i => decide (lengths i ≤ 0)) with
      _ | i
    · rw [NewRect, hf] at hr
      cases hr
      intro i
      have := List.find?_eq_none.mp hf i (List.mem_finRange i)
      simp only [decide_eq_true_eq, not_le] at this
      show p i ≤ p i + lengths i
      linarith
    · rw [NewRect, hf] at hr
      cases hr
  · intro d p tol htol i
    show p i - tol ≤ p i + tol
    linarith

/-- Witness for claim C5 (amended): concrete instances of each guarded
construction path, with the hypotheses discharged at `d = 1`. -/
theorem rect_invariant_construction_paths_witness :
    (0 : ℚ) ≤ 1 ∧ RectInv (ToRect (fun _ => (5 : ℚ)) 1 : Rect 1)
      ∧ (RectInv (⟨fun _ => 0, fun _ => 1⟩ : Rect 1)
          ∧ RectInv (⟨fun _ => 2, fun _ => 3⟩ : Rect 1)
          ∧ RectInv (boundingBox (⟨fun _ => 0, fun _ => 1⟩ : Rect 1)
              (⟨fun _ => 2, fun _ => 3⟩ : Rect 1))) :=
  ⟨by norm_num,
   rect_invariant_construction_paths.2.1 1 (fun _ => (5 : ℚ)) 1 (by norm_num),
   fun _ => by norm_num,
   fun _ => by norm_num,
   rect_invariant_construction_paths.2.2.1 1 (⟨fun _ => 0, fun _ => 1⟩ : Rect 1)
     (⟨fun _ => 2, fun _ => 3⟩ : Rect 1) (fun _ => by norm_num)
     (fun _ => by norm_num)⟩

/-- Counterexample to claim C6: for the two-dimensional unit square the
code's `margin` is `4 · 2 = 8`, not `2^(D-1) · 2 = 4`: the multiplier is
the hard-coded `4.0`, not `2^(D-1)` derived from the dimensionality. -/
theorem margin_multiplier_not_derived :
    margin (⟨fun _ => 0, fun _ => 1⟩ : Rect 2)
      ≠ 2 ^ (2 - 1) * ∑ i : Fin 2,
          ((⟨fun _ => 0, fun _ => 1⟩ : Rect 2).Q i
            - (⟨fun _ => 0, fun _ => 1⟩ : Rect 2).P i) := by
  norm_num [margin, Fin.sum_univ_two]

/-- Claim C6 (amended): `margin` multiplies the summed edge lengths by the
hard-coded constant `4`, which agrees with `2^(D-1)` exactly in the
three-dimensional case the constant was written for. -/
theorem margin_eq_four_mul_sum :
    (∀ (d : ℕ) (r : Rect d), margin r = 4 * ∑ i, (r.Q i - r.P i))
      ∧ (∀ r : Rect 3, margin r = 2 ^ (3 - 1) * ∑ i, (r.Q i - r.P i)) := by
  refine ⟨fun d r => rfl, fun r => ?_⟩
  rw [margin]
  norm_num

/-- Claim C7: `Intersect` is true unless some dimension has
`r2.high ≤ r1.low` or `r1.high ≤ r2.low`, and rectangles merely touching
along a shared boundary are reported as non-intersecting. -/
theorem intersect_iff_no_separating_dim :
    (∀ (d : ℕ) (r1 r2 : Rect d), RectInv r1 → RectInv r2 →
        (Intersect r1 r2 ↔ ¬ ∃ i, (r2.Q i ≤ r1.P i ∨ r1.Q i ≤ r2.P i)))
      ∧ (∀ (d : ℕ) (r1 r2 : Rect d), RectInv r1 → RectInv r2 →
          (∃ i, r1.Q i = r2.P i ∨ r2.Q i = r1.P i) → ¬ Intersect r1 r2) := by
  constructor
  · intro d r1 r2 _ _
    exact not_exists.symm
  · rintro d r1 r2 _ _ ⟨i, hi | hi⟩ hI
    · exact hI i (Or.inr hi.le)
    · exact hI i (Or.inl hi.le)

/-- Witness for claim C7: the separating-dimension characterisation and
the touching case at the one-dimensional rectangles `[0, 1]` and
`[1, 2]`, which share only the boundary point `1`. -/
theorem intersect_iff_no_separating_dim_witness :
    RectInv (⟨fun _ => 0, fun _ => 1⟩ : Rect 1)
      ∧ RectInv (⟨fun _ => 1, fun _ => 2⟩ : Rect 1)
      ∧ (∃ i, (⟨fun _ => 0, fun _ => 1⟩ : Rect 1).Q i
            = (⟨fun _ => 1, fun _ => 2⟩ : Rect 1).P i
          ∨ (⟨fun _ => 1, fun _ => 2⟩ : Rect 1).Q i
            = (⟨fun _ => 0, fun _ => 1⟩ : Rect 1).P i)
      ∧ ¬ Intersect (⟨fun _ => 0, fun _ => 1⟩ : Rect 1)
          (⟨fun _ => 1, fun _ => 2⟩ : Rect 1) :=
  ⟨fun _ => by norm_num,
   fun _ => by norm_num,
   ⟨⟨0, Nat.one_pos⟩, Or.inl rfl⟩,
   intersect_iff_no_separating_dim.2 1 (⟨fun _ => 0, fun _ => 1⟩ : Rect 1)
     (⟨fun _ => 1, fun _ => 2⟩ : Rect 1) (fun _ => by norm_num)
     (fun _ => by norm_num) ⟨⟨0, Nat.one_pos⟩, Or.inl rfl⟩⟩

/-- Counterexample to claim C8: the zero-extent rectangle `ToRect (1) 0`
(a single point in one dimension) does intersect the fat rectangle
`[0, 2]`, so a rectangle with zero extent does not intersect nothing. -/
theorem zero_extent_rect_intersects_fat_rect :
    (∀ i, (ToRect (fun _ => (1 : ℚ)) 0 : Rect 1).P i
        = (ToRect (fun _ => (1 : ℚ)) 0 : Rect 1).Q i)
      ∧ Intersect (ToRect (fun _ => (1 : ℚ)) 0 : Rect 1)
          (⟨fun _ => 0, fun _ => 2⟩ : Rect 1) := by
  constructor
  · intro i
    norm_num [ToRect]
  · intro i
    norm_num [ToRect]

/-- Claim C8 (amended): `Intersect r r` holds exactly when `r` has strictly
positive extent in every dimension; in particular a rectangle with a
zero-extent dimension, such as one built by `ToRect` with tolerance `0`,
does not intersect itself (though it can intersect other rectangles). -/
theorem intersect_self_iff_positive_extent :
    (∀ (d : ℕ) (r : Rect d), Intersect r r ↔ ∀ i, r.P i < r.Q i)
      ∧ (∀ (d : ℕ) (p : Point d), 0 < d →
          ¬ Intersect (ToRect p 0) (ToRect p 0)) := by
  constructor
  · intro d r
    constructor
    · intro h i
      have := h i
      rw [or_self] at this
      exact not_le.mp this
    · intro h i
      rw [or_self]
      exact not_le.mpr (h i)
  · intro d p hd hI
    have := hI ⟨0, hd⟩
    rw [or_self] at this
    exact this (by norm_num [ToRect])

/-- Witness for claim C8 (amended): both parts at concrete inputs, with
the dimension-positivity hypothesis discharged at `d = 1`. -/
theorem intersect_self_iff_positive_extent_witness :
    0 < 1 ∧ ¬ Intersect (ToRect (fun _ => (1 : ℚ)) 0 : Rect 1)
        (ToRect (fun _ => (1 : ℚ)) 0) :=
  ⟨Nat.one_pos,
   intersect_self_iff_positive_extent.2 1 (fun _ => (1 : ℚ)) Nat.one_pos⟩

/-- Widening a rectangle's interval in a dimension can only shrink that
dimension's contribution to `minDist`. -/
theorem minDistTerm_anti (p : Point d) (s r : Rect d) (i : Fin d)
    (hP : s.P i ≤ r.P i) (hQ : r.Q i ≤ s.Q i) (hr : r.P i ≤ r.Q i) :
    minDistTerm p s i ≤ minDistTerm p r i := by
  unfold minDistTerm
  split_ifs <;>
    first
      | exact le_rfl
      | exact mul_self_nonneg _
      | nlinarith [hP, hQ, hr]

/-- Claim C9: for every point, enlarging a rectangle to the bounding box
of itself and another rectangle never increases `minDist`, so lower bounds
computed on enclosing boxes stay valid. -/
theorem minDist_boundingBox_le (p : Point d) (r1 r2 : Rect d)
    (h1 : RectInv r1) (h2 : RectInv r2) :
    minDist p (boundingBox r1 r2) ≤ minDist p r1 := by
  unfold minDist
  refine Finset.sum_le_sum fun i _ => minDistTerm_anti p (boundingBox r1 r2) r1 i ?_ ?_ (h1 i)
  · show (if r2.P i < r1.P i then r2.P i else r1.P i) ≤ r1.P i
    split_ifs with h
    · exact h.le
    · exact le_rfl
  · show r1.Q i ≤ (if r1.Q i < r2.Q i then r2.Q i else r1.Q i)
    split_ifs with h
    · exact h.le
    · exact le_rfl

/-- Witness for claim C9 at `p = (0)`, `r1 = [1, 2]`, `r2 = [3, 4]`. -/
theorem minDist_boundingBox_le_witness :
    RectInv (⟨fun _ => 1, fun _ => 2⟩ : Rect 1)
      ∧ RectInv (⟨fun _ => 3, fun _ => 4⟩ : Rect 1)
      ∧ minDist (fun _ => (0 : ℚ))
          (boundingBox (⟨fun _ => 1, fun _ => 2⟩ : Rect 1)
            (⟨fun _ => 3, fun _ => 4⟩ : Rect 1))
        ≤ minDist (fun _ => (0 : ℚ)) (⟨fun _ => 1, fun _ => 2⟩ : Rect 1) :=
  ⟨fun _ => by norm_num,
   fun _ => by norm_num,
   minDist_boundingBox_le (fun _ => (0 : ℚ)) (⟨fun _ => 1, fun _ => 2⟩ : Rect 1)
     (⟨fun _ => 3, fun _ => 4⟩ : Rect 1) (fun _ => by norm_num)
     (fun _ => by norm_num)⟩

/-- Claim C10: when `r1` already contains `r2`, taking the bounding box of
`r1` and `r2` is the identity on `r1` as a value. -/
theorem boundingBox_of_containsRect (r1 r2 : Rect d)
    (h1 : RectInv r1) (h2 : RectInv r2) (hc : ContainsRect r1 r2) :
    boundingBox r1 r2 = r1 := by
  ext i
  · show (if r2.P i < r1.P i then r2.P i else r1.P i) = r1.P i
    rw [if_neg fun hlt => hc i (Or.inl hlt)]
  · show (if r1.Q i < r2.Q i then r2.Q i else r1.Q i) = r1.Q i
    rw [if_neg fun hlt => hc i (Or.inr hlt)]

/-- Witness for claim C10 at `r1 = [0, 3]`, `r2 = [1, 2]`. -/
theorem boundingBox_of_containsRect_witness :
    RectInv (⟨fun _ => 0, fun _ => 3⟩ : Rect 1)
      ∧ RectInv (⟨fun _ => 1, fun _ => 2⟩ : Rect 1)
      ∧ ContainsRect (⟨fun _ => 0, fun _ => 3⟩ : Rect 1)
          (⟨fun _ => 1, fun _ => 2⟩ : Rect 1)
      ∧ boundingBox (⟨fun _ => 0, fun _ => 3⟩ : Rect 1)
          (⟨fun _ => 1, fun _ => 2⟩ : Rect 1)
        = (⟨fun _ => 0, fun _ => 3⟩ : Rect 1) :=
  ⟨fun _ => by norm_num,
   fun _ => by norm_num,
   fun _ => by norm_num,
   boundingBox_of_containsRect (⟨fun _ => 0, fun _ => 3⟩ : Rect 1)
     (⟨fun _ => 1, fun _ => 2⟩ : Rect 1) (fun _ => by norm_num)
     (fun _ => by norm_num) (fun _ => by norm_num)⟩
